import Mathlib

/-!
Verification of the cleanstream OBS audio filter (src/audio-filter.cpp)
against its natural-language specification.

The C++ source is shallowly embedded: machine integers become `Nat` with
explicit wraparound (`% 2^32` / `% 2^64`) where the source performs
unsigned arithmetic; float samples become exact rationals (`ℚ`); circular
byte buffers become Lean lists with the front of the buffer at the head.
-/

/-- 2^32, the modulus of `uint32_t` arithmetic. -/
def U32 : ℕ := 4294967296

/-- 2^64, the modulus of `uint64_t` / `size_t` arithmetic. -/
def U64 : ℕ := 18446744073709551616

/-- Unsigned 32-bit subtraction `a - b` (two's-complement wraparound). -/
def usub32 (a b : ℕ) : ℕ := (a + (U32 - b % U32)) % U32

/-- Unsigned 64-bit subtraction `a - b` (two's-complement wraparound). -/
def usub64 (a b : ℕ) : ℕ := (a + (U64 - b % U64)) % U64

/-- Audio packet info, `struct cleanstream_audio_info` (audio-filter.cpp:41):
a `uint32_t` frame count and a `uint64_t` timestamp. -/
structure cleanstream_audio_info where
  frames : ℕ
  timestamp : ℕ
deriving DecidableEq

/-- Sum of the frame counts held in an info queue. -/
def infoSum (l : List cleanstream_audio_info) : ℕ := (l.map (·.frames)).sum

/-- Result of the info-popping loop at the head of
`process_audio_from_buffer` (audio-filter.cpp:498-512). -/
structure DrainResult where
  info_buffer : List cleanstream_audio_info
  num_new : ℕ
  start_ts : ℕ
deriving DecidableEq

/-- The info-popping loop of `process_audio_from_buffer`
(audio-filter.cpp:499-512).  Pops infos from the front of the queue,
accumulating `num_new_frames_from_infos` (a `uint32_t`, hence the `% U32`)
and recording `start_timestamp` from the first popped info whose update
fires (the source tests `start_timestamp == 0`, using 0 as the unset
sentinel).  When the accumulated count reaches `target =
gf->frames - gf->overlap_frames`, the last popped info is re-appended with
`circlebuf_push_back` — i.e. at the TAIL of the queue — and its frames are
subtracted back out (uint32 arithmetic). -/
def popInfos (target : ℕ) : List cleanstream_audio_info → ℕ → ℕ → DrainResult
  | [], num, ts => ⟨[], num, ts⟩
  | i :: rest, num, ts =>
    let num' := (num + i.frames) % U32
    let ts' := if ts = 0 then i.timestamp else ts
    if target ≤ num' then ⟨rest ++ [i], usub32 num' i.frames, ts'⟩
    else popInfos target rest num' ts'

/-- State of the filter relevant to the buffer pipeline
(`struct cleanstream_data`, audio-filter.cpp:46).  Each circular buffer is
a list with the buffer front at the head; `copy_buffers` are the
fixed-capacity per-channel analysis windows. -/
structure cleanstream_data where
  frames : ℕ
  overlap_frames : ℕ
  overlap_ms : ℕ
  last_num_frames : ℕ
  info_buffer : List cleanstream_audio_info
  input_buffers : List (List ℚ)
  copy_buffers : List (List ℚ)
  info_out_buffer : List cleanstream_audio_info
  output_buffers : List (List ℚ)
deriving DecidableEq

/-- Overwrite `d.length` entries of `buf` starting at offset `off`
(the effect of `memcpy(buf + off, d, d.length * sizeof(float))`). -/
def writeAt (buf : List ℚ) (off : ℕ) (d : List ℚ) : List ℚ :=
  buf.take off ++ d ++ buf.drop (off + d.length)

/-- The producer push of `cleanstream_filter_audio` (audio-filter.cpp:643-656):
append `nframes` samples to each channel's input circular buffer and
enqueue one `cleanstream_audio_info`. -/
def cleanstream_push (gf : cleanstream_data) (data : List (List ℚ))
    (nframes ts : ℕ) : cleanstream_data :=
  { gf with
    input_buffers :=
      List.zipWith (fun buf d => buf ++ d.take nframes) gf.input_buffers data,
    info_buffer := gf.info_buffer ++ [⟨nframes, ts⟩] }

/-- One full pass of `process_audio_from_buffer` (audio-filter.cpp:487-605),
excluding the timing/overlap adaptation at the end (modelled separately by
`adapt_overlap`): pop infos, pop samples from the input circular buffers
into the analysis windows (with the overlap carried over unless this is the
very first window), then publish to the output buffers. -/
def process_audio_from_buffer (gf : cleanstream_data) : cleanstream_data :=
  let target := usub64 gf.frames gf.overlap_frames
  let r := popInfos target gf.info_buffer 0 0
  let num := r.num_new
  let copy' :=
    if 0 < gf.last_num_frames then
      -- move overlap frames from the end of the last window to the front,
      -- then pop `num` new samples from the input buffer after them
      List.zipWith (fun cb inp =>
          writeAt (writeAt cb 0
              ((cb.drop (gf.last_num_frames - gf.overlap_frames)).take gf.overlap_frames))
            gf.overlap_frames (inp.take num))
        gf.copy_buffers gf.input_buffers
    else
      -- very first time: pop `num + overlap_frames` samples to the front
      List.zipWith (fun cb inp => writeAt cb 0 (inp.take (num + gf.overlap_frames)))
        gf.copy_buffers gf.input_buffers
  let consumed := if 0 < gf.last_num_frames then num else num + gf.overlap_frames
  { gf with
    info_buffer := r.info_buffer,
    input_buffers := gf.input_buffers.map (·.drop consumed),
    copy_buffers := copy',
    last_num_frames := num + gf.overlap_frames,
    info_out_buffer := gf.info_out_buffer ++ [⟨num, r.start_ts⟩],
    output_buffers :=
      List.zipWith (fun ob cb => ob ++ cb.take num) gf.output_buffers copy' }

/-- The overlap adaptation at the tail of `process_audio_from_buffer`
(audio-filter.cpp:612-624).  `overlap_ms` is a `size_t`, so `overlap_ms - 10`
wraps modulo 2^64; the cap `(uint64_t)(new_frames_ms * 0.75f)` equals
`3 * new_frames_ms / 4` exactly for every `new_frames_ms < 2^24` (0.75 is an
exact binary float and the product then rounds to itself). -/
def adapt_overlap (overlap_ms duration new_frames_ms : ℕ) (skipped : Bool) : ℕ :=
  if new_frames_ms < duration then max (usub64 overlap_ms 10) 100
  else if !skipped then min (overlap_ms + 10) (3 * new_frames_ms / 4)
  else overlap_ms

/-- OVERLAP_SIZE_MSEC (audio-filter.cpp:31), the initial `overlap_ms` set by
`cleanstream_update` (audio-filter.cpp:264). -/
def OVERLAP_SIZE_MSEC : ℕ := 340

/-- The loop body of `high_pass_filter` (audio-filter.cpp:96-99):
`y` is the running filter state and `prev` the value currently stored at
`pcmf32[i - 1]`.  The source filters IN PLACE — iteration `i` executes
`pcmf32[i] = y` — so the read of `pcmf32[i - 1]` at the next iteration
observes the just-written filtered value `y'`, which is why the recursion
passes `y'` both as the new state and as the new `prev`.  (At the first
iteration `prev` is the untouched `pcmf32[0]`, which equals the initial
state `y = pcmf32[0]`.)  The aliasing makes `y + x - prev` collapse to
`x`, see `high_pass_aux_alias`. -/
def high_pass_aux (alpha : ℚ) : ℚ → ℚ → List ℚ → List ℚ
  | _, _, [] => []
  | y, prev, x :: rest =>
    let y' := alpha * (y + x - prev)
    y' :: high_pass_aux alpha y' y' rest

/-- `high_pass_filter` (audio-filter.cpp:88-100).  The first sample is left
unchanged (`y = pcmf32[0]`, the loop starts at index 1); because of the
in-place aliasing modelled in `high_pass_aux`, the computed output is NOT
the textbook IIR recursion but `[x0, alpha * x1, alpha * x2, ...]`.  The
coefficient `alpha = dt / (rc + dt)` is taken as a parameter: the source
computes it from the cutoff frequency and sample rate in float arithmetic
(through `M_PI`), and every property claimed of the filter holds for an
arbitrary coefficient. -/
def high_pass_filter (alpha : ℚ) (xs : List ℚ) : List ℚ :=
  match xs with
  | [] => []
  | x0 :: rest => x0 :: high_pass_aux alpha x0 x0 rest

/-- `fabsf`, exact absolute value on the rational model of float samples. -/
def fabsf (x : ℚ) : ℚ := if x < 0 then -x else x

/-- `std::max` on the rational model of float samples. -/
def stdmax (a b : ℚ) : ℚ := if a < b then b else a

/-- Sum of absolute values of a sample list. -/
def sumAbs (xs : List ℚ) : ℚ := (xs.map fabsf).sum

/-- The mean absolute amplitude computed by `vad_simple`
(audio-filter.cpp:112-118): optional high-pass (applied iff
`freq_thold > 0`), then the mean of absolute sample values. -/
def vad_energy (alpha freq_thold : ℚ) (xs : List ℚ) : ℚ :=
  let f := if 0 < freq_thold then high_pass_filter alpha xs else xs
  sumAbs f / (xs.length : ℚ)

/-- `vad_simple` (audio-filter.cpp:103-130): returns `false` iff the mean
absolute amplitude is below `vad_thold`. -/
def vad_simple (alpha freq_thold vad_thold : ℚ) (xs : List ℚ) : Bool :=
  if vad_energy alpha freq_thold xs < vad_thold then false else true

/-- VAD_THOLD (audio-filter.cpp:33), the fixed VAD threshold 0.0001. -/
def VAD_THOLD : ℚ := 1 / 10000

/-- `avg_energy_in_window` (audio-filter.cpp:132-142): average of absolute
values of `n` samples starting at `start`; out-of-range reads are modelled
by the default value 0 (`getD`), and the bounds claims show no such read
occurs under the stated precondition. -/
def avg_energy_in_window (xs : List ℚ) (start n : ℕ) : ℚ :=
  (((List.range n).map (fun j => fabsf (xs.getD (start + j) 0))).sum) / (n : ℚ)

/-- `max_energy_in_window` (audio-filter.cpp:144-153): running maximum of
absolute values starting from `0.0f`, over `n` samples from `start`. -/
def max_energy_in_window (xs : List ℚ) (start n : ℕ) : ℚ :=
  (List.range n).foldl (fun e j => stdmax e (fabsf (xs.getD (start + j) 0))) 0

/-- `word_boundary_simple` (audio-filter.cpp:156-188).  `size` is
`pcm32f_size`; the size_t subtraction `pcm32f_size - n_samples_window`
wraps via `usub64` exactly as in the source (under the length precondition
it never wraps).  Note the third computation spans the sample range
`[n_samples_window, size)`: its second argument is a COUNT, so the scanned
range includes the last sub-window, not just the interior. -/
def word_boundary_simple (xs : List ℚ) (size sample_rate : ℕ) (thold : ℚ) : ℕ :=
  let nw := sample_rate * 50 / 1000
  let first_window_energy := avg_energy_in_window xs 0 nw
  let last_window_energy := avg_energy_in_window xs (usub64 size nw) nw
  let max_energy_in_middle := max_energy_in_window xs nw (usub64 size nw)
  let max_energy_thold := max_energy_in_middle * thold
  if first_window_energy < max_energy_thold ∧ last_window_energy < max_energy_thold
  then nw else 0

/-- Maximum energy over the interior sub-windows only, following the
claim's wording ("the maximum energy among the interior sub-windows",
i.e. the samples strictly between the first and the last 50 ms
sub-window).  Used solely to compare the claim against the source, which
instead scans up to the end of the window. -/
def max_energy_interior_claim (xs : List ℚ) (size nw : ℕ) : ℚ :=
  max_energy_in_window xs nw (size - 2 * nw)

/-- Indices accessed by the diagnostic logging loop of
`word_boundary_simple` (audio-filter.cpp:174-176): windows starting at
`i = 0, nw, 2nw, ...` while `i < size - nw`, each reading `nw` samples. -/
def logLoopIdx (nw size i : ℕ) : List ℕ :=
  if _h : 0 < nw ∧ i < size - nw then
    ((List.range nw).map (fun j => i + j)) ++ logLoopIdx nw size (i + nw)
  else []
termination_by size - nw - i
decreasing_by
  omega

/-- Every sample index read by `word_boundary_simple` on a window of
`size` samples with 50 ms sub-windows of `nw` samples: the first
sub-window, the last sub-window, the scan from `nw` to the end, and the
logging loop. -/
def wb_accessed (size nw : ℕ) : List ℕ :=
  List.range nw ++
  (List.range nw).map (fun j => size - nw + j) ++
  (List.range (size - nw)).map (fun j => nw + j) ++
  logLoopIdx nw size 0

/-- ASCII lower-casing as performed by `::tolower` over the transcript
(audio-filter.cpp:423). -/
def lower_char (c : Char) : Char :=
  if 'A' ≤ c ∧ c ≤ 'Z' then Char.ofNat (c.toNat + 32) else c

/-- Lower-case a transcript string character by character. -/
def lower_str (s : String) : String := String.mk (s.data.map lower_char)

/-- Substring containment, the semantics of `std::string::find(pat) != npos`. -/
def contains_sub (hay pat : List Char) : Bool :=
  match hay with
  | [] => pat.isEmpty
  | _ :: t => pat.isPrefixOf hay || contains_sub t pat

/-- String-level substring containment. -/
def str_contains (s pat : String) : Bool := contains_sub s.data pat.data

/-- The filler-speech condition of `run_whisper_inference`
(audio-filter.cpp:427-435), over the lower-cased transcript `tl` and the
result `pOk` of the probability comparison `sentence_p > filler_p_threshold`. -/
def filler_cond (tl : String) (pOk : Bool) : Bool :=
  (str_contains tl ("[bl") && pOk) ||
  str_contains tl ("uh,") ||
  str_contains tl ("um,") ||
  str_contains tl ("um.") ||
  str_contains tl ("ah.") ||
  str_contains tl ("ah,") ||
  str_contains tl ("eh.") ||
  str_contains tl ("eh,") ||
  str_contains tl ("uh.")

/-- Filler classification for a transcript with a known mean token
probability `p` and threshold `th` (strict comparison, as in the source). -/
def filler_class (text : String) (p th : ℚ) : Bool :=
  filler_cond (lower_str text) (decide (th < p))

/-- The just-listed disfluency substrings, as a list (for the claim's
"contains one of the substrings" phrasing). -/
def disfluency_substrings : List String :=
  ["uh,", "um,", "um.", "ah.", "ah,", "eh.", "eh,", "uh."]

/-- The disfluency-substring branch alone (what remains of the condition
when the probability branch cannot fire). -/
def disfluency_only (tl : String) : Bool :=
  str_contains tl ("uh,") ||
  str_contains tl ("um,") ||
  str_contains tl ("um.") ||
  str_contains tl ("ah.") ||
  str_contains tl ("ah,") ||
  str_contains tl ("eh.") ||
  str_contains tl ("eh,") ||
  str_contains tl ("uh.")

/-- Mean token probability (audio-filter.cpp:413-418).  With zero tokens the
source computes `0.0f / 0`, an IEEE NaN; this is modelled as `none`, and
`NaN > threshold` is false for every threshold, modelled by `p_gt`. -/
def mean_token_p (tokens : List ℚ) : Option ℚ :=
  if tokens.isEmpty then none else some (tokens.sum / (tokens.length : ℚ))

/-- The comparison `sentence_p > gf->filler_p_threshold`: false whenever the
mean is NaN (`none`), matching IEEE comparison semantics. -/
def p_gt (p : Option ℚ) (th : ℚ) : Bool :=
  match p with
  | none => false
  | some q => decide (th < q)

/-- Full classification of `run_whisper_inference` from a transcript and
its token probabilities (audio-filter.cpp:405-441). -/
def run_classify (text : String) (tokens : List ℚ) (th : ℚ) : Bool :=
  filler_cond (lower_str text) (p_gt (mean_token_p tokens) th)

lemma usub32_add_cancel {num f : ℕ} (hn : num < U32) (_hf : f < U32) :
    usub32 ((num + f) % U32) f = num := by
  unfold usub32 U32 at *
  omega

lemma usub64_of_le {a b : ℕ} (hb : b ≤ a) (ha : a < U64) : usub64 a b = a - b := by
  unfold usub64 U64 at *
  omega

lemma popInfos_num_lt (target : ℕ) :
    ∀ (l : List cleanstream_audio_info) (num ts : ℕ),
      (∀ i ∈ l, i.frames < U32) → num < U32 → num < target →
      (popInfos target l num ts).num_new < target := by
  intro l
  induction l with
  | nil => intro num ts _ _ h; simpa [popInfos] using h
  | cons i rest ih =>
    intro num ts hframes hnum htarget
    rw [popInfos]
    by_cases h : target ≤ (num + i.frames) % U32
    · simp only [h, if_true]
      rw [usub32_add_cancel hnum (hframes i (by simp))]
      exact htarget
    · simp only [h, if_false]
      exact ih _ _ (fun j hj => hframes j (by simp [hj])) (Nat.mod_lt _ (by unfold U32; omega))
        (lt_of_not_ge h)

lemma popInfos_conserve (target : ℕ) :
    ∀ (l : List cleanstream_audio_info) (num ts : ℕ),
      infoSum l + num < U32 →
      infoSum (popInfos target l num ts).info_buffer + (popInfos target l num ts).num_new
        = infoSum l + num := by
  intro l
  induction l with
  | nil => intro num ts _; simp [popInfos, infoSum]
  | cons i rest ih =>
    intro num ts hsum
    have hsum' : infoSum (i :: rest) = i.frames + infoSum rest := by
      simp [infoSum]
    have hnowrap : (num + i.frames) % U32 = num + i.frames := by
      apply Nat.mod_eq_of_lt
      omega
    rw [popInfos]
    by_cases h : target ≤ (num + i.frames) % U32
    · simp only [h, if_true]
      have h1 : infoSum (rest ++ [i]) = infoSum rest + i.frames := by
        simp [infoSum]
      have h2 : usub32 ((num + i.frames) % U32) i.frames = num :=
        usub32_add_cancel (by omega) (by omega)
      rw [h1, h2]
      omega
    · simp only [h, if_false]
      rw [hnowrap]
      rw [ih (num + i.frames) _ (by omega)]
      omega

lemma popInfos_ts_frozen (target : ℕ) :
    ∀ (l : List cleanstream_audio_info) (num ts : ℕ), ts ≠ 0 →
      (popInfos target l num ts).start_ts = ts := by
  intro l
  induction l with
  | nil => intro num ts _; rfl
  | cons i rest ih =>
    intro num ts hts
    rw [popInfos]
    simp only [if_neg hts]
    by_cases h : target ≤ (num + i.frames) % U32
    · simp [h]
    · simp only [h, if_false]
      exact ih _ _ hts

/-- C3: the info-popping loop of `process_audio_from_buffer` re-appends the
info that would reach the target with `circlebuf_push_back`, which places it
at the TAIL of the queue: with two queued packets of 5 frames each
(timestamps 1 then 2) and `frames = 7`, `overlap_frames = 2` (target 5),
the first pop immediately reaches the target, its frames are not consumed
(`num_new = 0`), but the queue afterwards is `[(5, ts 2), (5, ts 1)]`, so
the next cycle's first pop observes the later-arrived packet `(5, ts 2)`,
not the pushed-back `(5, ts 1)`: FIFO order is NOT preserved across a
push-back. -/
theorem C3_pushback_goes_to_tail :
    popInfos (usub64 7 2) [⟨5, 1⟩, ⟨5, 2⟩] 0 0
      = ⟨[⟨5, 2⟩, ⟨5, 1⟩], 0, 1⟩ := by decide

/-- C9 counterexample: the source uses `start_timestamp == 0` as the unset
sentinel, so when the first popped packet has timestamp 0 the attributed
start timestamp is taken from a later packet: draining `[(3 frames, ts 0),
(3 frames, ts 7)]` with target 10 attributes start timestamp 7, not the
first popped packet's timestamp 0. -/
theorem C9_counter :
    (popInfos 10 [⟨3, 0⟩, ⟨3, 7⟩] 0 0).start_ts = 7 := by decide

/-- C9 amended: for every drain whose FIRST popped packet has a nonzero
timestamp, the attributed start timestamp is exactly that packet's
timestamp (timestamp 0 is conflated with "unset" by the sentinel test). -/
theorem C9_amended_thm :
    ∀ (target : ℕ) (i : cleanstream_audio_info) (rest : List cleanstream_audio_info),
      i.timestamp ≠ 0 →
      (popInfos target (i :: rest) 0 0).start_ts = i.timestamp := by
  intro target i rest hts
  rw [popInfos]
  simp only [if_pos rfl, Nat.zero_add]
  by_cases h : target ≤ i.frames % U32
  · rw [if_pos h]
    simp
  · rw [if_neg h]
    exact popInfos_ts_frozen target rest _ _ hts

/-- C9 witness: a drain of a single packet with timestamp 7 attributes 7. -/
theorem C9_witness :
    (popInfos 10 [⟨3, 7⟩] 0 0).start_ts = 7 :=
  C9_amended_thm 10 ⟨3, 7⟩ [] (by decide)

/-- C10 counterexample: quantified over "every overlap value in effect at
drain time", the claim fails.  With `frames = 10` and `overlap_frames = 11`
(overlap exceeding the window, reachable after the size_t underflow of the
overlap controller), the size_t target `frames - overlap_frames` wraps to
2^64 - 1, the accumulation loop never pushes back, and a queued 4-frame
packet makes `last_num_frames = 4 + 11 = 15 > frames = 10`: the recorded
window length exceeds the allocated capacity. -/
theorem C10_counter :
    (popInfos (usub64 10 11) [⟨4, 1⟩] 0 0).num_new = 4 ∧
    (process_audio_from_buffer
        ⟨10, 11, 340, 0, [⟨4, 1⟩], [[1, 2, 3, 4]], [[0, 0, 0, 0, 0, 0, 0, 0, 0, 0]],
          [], []⟩).last_num_frames = 15 ∧
    10 < 15 := by decide

/-- C10 amended: whenever `overlap_frames < frames` (and the machine-width
side conditions hold: `frames` fits in a size_t and each queued packet's
frame count fits in a uint32), every drain consumes strictly fewer than
`frames - overlap_frames` new frames, so the recorded window length
`last_num_frames = num_new_frames_from_infos + overlap_frames` stays
strictly below the allocated per-channel capacity of `frames` samples. -/
theorem C10_amended_thm :
    ∀ gf : cleanstream_data,
      gf.overlap_frames < gf.frames → gf.frames < U64 →
      (∀ i ∈ gf.info_buffer, i.frames < U32) →
      (popInfos (usub64 gf.frames gf.overlap_frames) gf.info_buffer 0 0).num_new
          < gf.frames - gf.overlap_frames ∧
      (process_audio_from_buffer gf).last_num_frames < gf.frames := by
  intro gf hov hframes hinfo
  have htarget : usub64 gf.frames gf.overlap_frames = gf.frames - gf.overlap_frames :=
    usub64_of_le (le_of_lt hov) hframes
  have hnum : (popInfos (usub64 gf.frames gf.overlap_frames) gf.info_buffer 0 0).num_new
      < gf.frames - gf.overlap_frames := by
    rw [htarget]
    exact popInfos_num_lt _ _ 0 0 hinfo (by unfold U32; omega) (by omega)
  refine ⟨hnum, ?_⟩
  have hlast : (process_audio_from_buffer gf).last_num_frames
      = (popInfos (usub64 gf.frames gf.overlap_frames) gf.info_buffer 0 0).num_new
        + gf.overlap_frames := rfl
  rw [hlast]
  omega

/-- C10 witness: a concrete in-range drain (frames 10, overlap 3, one queued
2-frame packet) stays strictly below capacity. -/
theorem C10_witness :
    (process_audio_from_buffer
        ⟨10, 3, 340, 0, [⟨2, 1⟩], [[1, 2]], [[0, 0, 0, 0, 0, 0, 0, 0, 0, 0]],
          [], []⟩).last_num_frames < 10 :=
  (C10_amended_thm
      ⟨10, 3, 340, 0, [⟨2, 1⟩], [[1, 2]], [[0, 0, 0, 0, 0, 0, 0, 0, 0, 0]], [], []⟩
      (by decide) (by decide) (by decide)).2

/-- C4 counterexample: starting from the configured initial
`overlap_ms = OVERLAP_SIZE_MSEC = 340`, a single fast non-skipped cycle
whose window held only 40 ms of new frames sets
`overlap_ms = min(350, 30) = 30 < 100`, violating the claimed lower bound;
and a slow cycle over a 100 ms window leaves `overlap_ms = 330`, above the
claimed cap `3 * 100 / 4 = 75`.  Neither bound is invariant. -/
theorem C4_counter :
    adapt_overlap OVERLAP_SIZE_MSEC 0 40 false = 30 ∧ 30 < 100 ∧
    adapt_overlap OVERLAP_SIZE_MSEC 200 100 false = 330 ∧ 3 * 100 / 4 < 330 := by
  decide

/-- C4 amended: the controller's exact per-cycle rules.  A slow cycle
(duration strictly above the new-frames duration) sets `overlap_ms` to
`max(overlap_ms - 10, 100)` (size_t wraparound subtraction), hence at
least 100 after every slow cycle; a fast non-skipped cycle sets it to
`min(overlap_ms + 10, floor(0.75 * new_frames_ms))`, hence at most 75% of
the current new-frames duration after every fast non-skipped cycle (but
possibly far below 100); a skipped (silent) cycle leaves it unchanged.
The two bounds hold only branch-locally, not as a joint invariant. -/
theorem C4_amended_thm :
    ∀ (o d n : ℕ) (s : Bool),
      (n < d → adapt_overlap o d n s = max (usub64 o 10) 100 ∧
          100 ≤ adapt_overlap o d n s) ∧
      (d ≤ n → s = false → adapt_overlap o d n s = min (o + 10) (3 * n / 4) ∧
          adapt_overlap o d n s ≤ 3 * n / 4) ∧
      (d ≤ n → s = true → adapt_overlap o d n s = o) := by
  intro o d n s
  refine ⟨?_, ?_, ?_⟩
  · intro h
    rw [adapt_overlap, if_pos h]
    exact ⟨rfl, le_max_right _ _⟩
  · intro h hs
    subst hs
    have heq : adapt_overlap o d n false = min (o + 10) (3 * n / 4) := by
      rw [adapt_overlap, if_neg (by omega)]
      simp
    rw [heq]
    exact ⟨rfl, min_le_right _ _⟩
  · intro h hs
    subst hs
    rw [adapt_overlap, if_neg (by omega)]
    simp

/-- C4 witness: a slow 100 ms cycle from the initial overlap keeps the
floor of 100 (result 330 = max(330, 100)). -/
theorem C4_witness :
    100 ≤ adapt_overlap OVERLAP_SIZE_MSEC 200 100 false :=
  ((C4_amended_thm OVERLAP_SIZE_MSEC 200 100 false).1 (by decide)).2

lemma frames_le_infoSum :
    ∀ {l : List cleanstream_audio_info} {i : cleanstream_audio_info},
      i ∈ l → i.frames ≤ infoSum l := by
  intro l
  induction l with
  | nil => intro i h; cases h
  | cons j rest ih =>
    intro i h
    rcases List.mem_cons.mp h with h1 | h2
    · subst h1; simp [infoSum]
    · have := ih h2
      simp only [infoSum, List.map_cons, List.sum_cons] at *
      omega

lemma zipWith_append_take_length :
    ∀ (bufs ds : List (List ℚ)) (n L : ℕ),
      ds.length = bufs.length →
      (∀ d ∈ ds, n ≤ d.length) →
      (∀ b ∈ bufs, b.length = L) →
      ∀ b ∈ List.zipWith (fun buf d => buf ++ d.take n) bufs ds, b.length = L + n := by
  intro bufs
  induction bufs with
  | nil => intro ds n L _ _ _ b hb; simp at hb
  | cons x xs ih =>
    intro ds n L hlen hd hx b hb
    cases ds with
    | nil => simp at hlen
    | cons d ds' =>
      simp only [List.zipWith_cons_cons, List.mem_cons] at hb
      rcases hb with hb | hb
      · subst hb
        rw [List.length_append, List.length_take,
          Nat.min_eq_left (hd d (by simp)), hx x (by simp)]
      · exact ih ds' n L (by simpa using hlen) (fun d' hd' => hd d' (by simp [hd']))
          (fun b' hb' => hx b' (by simp [hb'])) b hb

/-- C2 counterexample: the invariant fails immediately after the very first
window's drain.  Configuration `frames = 10`, `overlap_frames = 3`,
`last_num_frames = 0`; one pushed packet of 10 frames (timestamp 5), so
before the drain `sum(info frames) = 10 =` channel sample count.  The drain
pops the packet, immediately reaches the target `10 - 3 = 7`, pushes it
back (`num_new = 0`), and then pops `num_new + overlap_frames = 3` samples
from the channel buffer: afterwards the info-queue sum is still 10 while
the channel buffer holds 7 samples — the claimed equality
`sum(frame counts) * sample_size == byte size of each channel buffer` is
violated at this observation point. -/
theorem C2_counter :
    infoSum (process_audio_from_buffer
        ⟨10, 3, 340, 0, [⟨10, 5⟩], [[1, 2, 3, 4, 5, 6, 7, 8, 9, 10]],
          [[0, 0, 0, 0, 0, 0, 0, 0, 0, 0]], [], []⟩).info_buffer = 10 ∧
    (process_audio_from_buffer
        ⟨10, 3, 340, 0, [⟨10, 5⟩], [[1, 2, 3, 4, 5, 6, 7, 8, 9, 10]],
          [[0, 0, 0, 0, 0, 0, 0, 0, 0, 0]], [], []⟩).input_buffers.map List.length
      = [7] ∧
    (10 : ℕ) ≠ 7 := by decide

/-- C2 amended: all channels always keep equal input-buffer sizes, and the
frame-count/byte-size correspondence is exact for every push and for every
drain with a previous window, but the very first window's drain
(`last_num_frames = 0`) removes `overlap_frames` more samples per channel
than info frames consumed, so from that point on
`sum(info frames) * sample_size` exceeds each channel's byte size by
exactly `overlap_frames * sample_size` (overlap taken at first-drain
time).  Precisely: a push of `nframes` frames grows the info sum and every
channel's length by `nframes`; a drain consuming `num_new` frames shrinks
the info sum by `num_new` and every channel's length by `num_new` (plus
`overlap_frames` on the very first drain). -/
theorem C2_amended_thm :
    (∀ (gf : cleanstream_data) (data : List (List ℚ)) (nframes ts L : ℕ),
        data.length = gf.input_buffers.length →
        (∀ d ∈ data, nframes ≤ d.length) →
        (∀ b ∈ gf.input_buffers, b.length = L) →
        infoSum (cleanstream_push gf data nframes ts).info_buffer
            = infoSum gf.info_buffer + nframes ∧
        ∀ b ∈ (cleanstream_push gf data nframes ts).input_buffers,
          b.length = L + nframes) ∧
    (∀ (gf : cleanstream_data) (L : ℕ),
        infoSum gf.info_buffer < U32 →
        gf.overlap_frames < gf.frames → gf.frames < U64 →
        (∀ b ∈ gf.input_buffers, b.length = L) → gf.frames ≤ L →
        infoSum (process_audio_from_buffer gf).info_buffer
            + (popInfos (usub64 gf.frames gf.overlap_frames) gf.info_buffer 0 0).num_new
          = infoSum gf.info_buffer ∧
        (0 < gf.last_num_frames →
          ∀ b ∈ (process_audio_from_buffer gf).input_buffers,
            b.length
              + (popInfos (usub64 gf.frames gf.overlap_frames) gf.info_buffer 0 0).num_new
              = L) ∧
        (gf.last_num_frames = 0 →
          ∀ b ∈ (process_audio_from_buffer gf).input_buffers,
            b.length
              + (popInfos (usub64 gf.frames gf.overlap_frames) gf.info_buffer 0 0).num_new
              + gf.overlap_frames = L)) := by
  constructor
  · intro gf data nframes ts L hlen hd hb
    constructor
    · simp [cleanstream_push, infoSum]
    · intro b hmem
      exact zipWith_append_take_length gf.input_buffers data nframes L
        hlen hd hb b hmem
  · intro gf L hsum hov hfr hb hfL
    have htarget : usub64 gf.frames gf.overlap_frames = gf.frames - gf.overlap_frames :=
      usub64_of_le (le_of_lt hov) hfr
    have hinfo : ∀ i ∈ gf.info_buffer, i.frames < U32 := by
      intro i hi
      exact lt_of_le_of_lt (frames_le_infoSum hi) hsum
    have hnum : (popInfos (usub64 gf.frames gf.overlap_frames) gf.info_buffer 0 0).num_new
        < gf.frames - gf.overlap_frames := by
      rw [htarget]
      exact popInfos_num_lt _ _ 0 0 hinfo (by unfold U32; omega) (by omega)
    have hcons : infoSum (popInfos (usub64 gf.frames gf.overlap_frames)
            gf.info_buffer 0 0).info_buffer
          + (popInfos (usub64 gf.frames gf.overlap_frames) gf.info_buffer 0 0).num_new
        = infoSum gf.info_buffer := by
      have := popInfos_conserve (usub64 gf.frames gf.overlap_frames)
        gf.info_buffer 0 0 (by omega)
      omega
    have hinfoeq : (process_audio_from_buffer gf).info_buffer
        = (popInfos (usub64 gf.frames gf.overlap_frames) gf.info_buffer 0 0).info_buffer :=
      rfl
    have hinputeq : (process_audio_from_buffer gf).input_buffers
        = gf.input_buffers.map
            (·.drop (if 0 < gf.last_num_frames
              then (popInfos (usub64 gf.frames gf.overlap_frames) gf.info_buffer 0 0).num_new
              else (popInfos (usub64 gf.frames gf.overlap_frames) gf.info_buffer 0 0).num_new
                + gf.overlap_frames)) := rfl
    refine ⟨by rw [hinfoeq]; exact hcons, ?_, ?_⟩
    · intro hlast b hmem
      rw [hinputeq] at hmem
      rcases List.mem_map.mp hmem with ⟨x, hx, hbx⟩
      subst hbx
      rw [if_pos hlast, List.length_drop]
      have := hb x hx
      omega
    · intro hlast b hmem
      rw [hinputeq] at hmem
      rcases List.mem_map.mp hmem with ⟨x, hx, hbx⟩
      subst hbx
      rw [if_neg (by omega), List.length_drop]
      have := hb x hx
      omega

/-- C2 witness: a concrete first-window drain (frames 3, overlap 1, one
2-frame packet over 3 queued samples) loses exactly `overlap_frames` extra
samples per channel. -/
theorem C2_witness :
    ∀ b ∈ (process_audio_from_buffer
        ⟨3, 1, 340, 0, [⟨2, 5⟩], [[1, 2, 3]], [[0, 0, 0]], [], []⟩).input_buffers,
      b.length
        + (popInfos (usub64 3 1) [⟨2, 5⟩] 0 0).num_new + 1 = 3 :=
  ((C2_amended_thm.2
      ⟨3, 1, 340, 0, [⟨2, 5⟩], [[1, 2, 3]], [[0, 0, 0]], [], []⟩ 3
      (by decide) (by decide) (by decide)
      (by decide) (by decide)).2.2) rfl

/-- Mono-channel state after the first processed window of the C1 trace:
frames 6, overlap 2; packets (2 frames each) with timestamps 10, 20, 30
are pushed and one window is processed. -/
def c1_mid : cleanstream_data :=
  process_audio_from_buffer
    (cleanstream_push
      (cleanstream_push
        (cleanstream_push
          ⟨6, 2, 340, 0, [], [[]], [[0, 0, 0, 0, 0, 0]], [], [[]]⟩
          [[1, 2]] 2 10)
        [[3, 4]] 2 20)
      [[5, 6]] 2 30)

/-- State after two more pushed packets (timestamps 40, 50) and a second
processed window. -/
def c1_end : cleanstream_data :=
  process_audio_from_buffer
    (cleanstream_push (cleanstream_push c1_mid [[7, 8]] 2 40) [[9, 10]] 2 50)

/-- C1 counterexample: on the second processed window the analysis window
is `[3, 4, 5, 6, _, _]` (`overlap_frames = 2` carried samples 3, 4 followed
by the freshly drained samples 5, 6, with `num_new = 2`), so the samples at
offset `overlap_frames` are `[5, 6]` — but the Output Assembler appended
`[3, 4]`, the FIRST `num_new` samples of the window (offset 0,
`circlebuf_push_back(&output, gf->copy_buffers[c], num_new * 4)`), taking
the total output from `[1, 2]` to `[1, 2, 3, 4]`.  The appended portion is
not the new (non-overlap) portion of the window.  (The enqueued
OutputPacketInfo frame count 2 and inherited start timestamp 30 do match
the claim.) -/
theorem C1_counter :
    c1_mid.output_buffers = [[1, 2]] ∧
    c1_end.copy_buffers = [[3, 4, 5, 6, 0, 0]] ∧
    ((c1_end.copy_buffers.getD 0 []).drop 2).take 2 = [5, 6] ∧
    c1_end.output_buffers = [[1, 2, 3, 4]] ∧
    (c1_end.output_buffers.getD 0 []).drop 2 = [3, 4] ∧
    c1_end.info_out_buffer = [⟨2, 10⟩, ⟨2, 30⟩] ∧
    ([3, 4] : List ℚ) ≠ [5, 6] := by decide

/-- C1 amended: for every processed window the Output Assembler appends, to
each channel's output buffer, the FIRST `num_new_frames_from_infos` samples
of that channel's analysis window (offset 0: the carried overlap followed
by the earliest new samples), and enqueues exactly one OutputPacketInfo
whose frame count is `num_new_frames_from_infos` and whose timestamp is the
drain's start timestamp, inherited rather than recomputed. -/
theorem C1_amended_thm :
    ∀ gf : cleanstream_data,
      (process_audio_from_buffer gf).info_out_buffer
          = gf.info_out_buffer
            ++ [⟨(popInfos (usub64 gf.frames gf.overlap_frames) gf.info_buffer 0 0).num_new,
                (popInfos (usub64 gf.frames gf.overlap_frames) gf.info_buffer 0 0).start_ts⟩] ∧
      (process_audio_from_buffer gf).output_buffers
          = List.zipWith
              (fun ob cb => ob ++ cb.take
                (popInfos (usub64 gf.frames gf.overlap_frames) gf.info_buffer 0 0).num_new)
              gf.output_buffers (process_audio_from_buffer gf).copy_buffers := by
  intro gf
  exact ⟨rfl, rfl⟩

/-- C5: for every transcript and mean token probability, the window is
classified filler iff the lower-cased transcript contains the blank-speech
marker and the mean probability strictly exceeds the threshold, or the
lower-cased transcript contains one of the eight disfluency substrings; in
particular, transcript "um, hmm" with probability 0.9 at the default
threshold 0.75 is filler, and "hello world" is never filler at any
probability. -/
theorem C5_thm :
    (∀ (text : String) (p th : ℚ),
        filler_class text p th = true ↔
          ((str_contains (lower_str text) ("[bl") = true ∧ th < p) ∨
            ∃ pat ∈ disfluency_substrings, str_contains (lower_str text) pat = true)) ∧
    filler_class ("um, hmm") (9 / 10) (3 / 4) = true ∧
    (∀ p : ℚ, filler_class ("hello world") p (3 / 4) = false) := by
  refine ⟨?_, ?_, ?_⟩
  · intro text p th
    simp only [filler_class, filler_cond, disfluency_substrings,
      Bool.or_eq_true, Bool.and_eq_true, decide_eq_true_eq,
      List.mem_cons, List.not_mem_nil, or_false, exists_eq_or_imp,
      exists_eq_left]
    tauto
  · decide
  · intro p
    have h : ∀ b : Bool, filler_cond (lower_str ("hello world")) b = false := by decide
    exact h _

/-- C5 witness: the concrete classification of "um, hmm" follows from the
theorem. -/
theorem C5_witness : filler_class ("um, hmm") (9 / 10) (3 / 4) = true :=
  C5_thm.2.1

/-- C8: with zero tokens the source computes `0.0f / 0`, an IEEE NaN, and
every comparison of NaN with the threshold is false, so a zero-token
transcript is classified exactly by the disfluency-substring branch — the
blank-marker-and-probability branch can never fire — and for every
threshold in the configured range (`filler_p_threshold ≥ 0`) the
classification is identical to what "probability 0" would give: no fault,
no propagated undefined behaviour. -/
theorem C8_thm :
    ∀ (text : String) (th : ℚ),
      run_classify text [] th = disfluency_only (lower_str text) ∧
      (0 ≤ th → run_classify text [] th = filler_class text 0 th) := by
  intro text th
  have hmean : mean_token_p [] = none := rfl
  have hfc : ∀ tl : String, filler_cond tl false = disfluency_only tl := by
    intro tl
    simp [filler_cond, disfluency_only]
  constructor
  · rw [run_classify, hmean]
    exact hfc _
  · intro hth
    rw [run_classify, hmean]
    show filler_cond (lower_str text) false = filler_class text 0 th
    rw [filler_class, decide_eq_false (not_lt.mpr hth)]

/-- C8 witness: for the transcript "abc" at the default threshold 0.75, the
zero-token classification equals the probability-0 classification. -/
theorem C8_witness :
    run_classify ("abc") [] (3 / 4) = filler_class ("abc") 0 (3 / 4) :=
  (C8_thm ("abc") (3 / 4)).2 (by norm_num)

lemma fabsf_eq_abs (x : ℚ) : fabsf x = |x| := by
  unfold fabsf
  split
  · exact (abs_of_neg (by assumption)).symm
  · exact (abs_of_nonneg (not_lt.mp (by assumption))).symm

lemma high_pass_aux_smul (alpha c : ℚ) :
    ∀ (l : List ℚ) (y prev : ℚ),
      high_pass_aux alpha (c * y) (c * prev) (l.map (fun x => c * x))
        = (high_pass_aux alpha y prev l).map (fun x => c * x) := by
  intro l
  induction l with
  | nil => intro y prev; rfl
  | cons x rest ih =>
    intro y prev
    simp only [List.map_cons, high_pass_aux, List.map]
    have h : alpha * (c * y + c * x - c * prev) = c * (alpha * (y + x - prev)) := by ring
    rw [h, ih]

lemma high_pass_filter_smul (alpha c : ℚ) (xs : List ℚ) :
    high_pass_filter alpha (xs.map (fun x => c * x))
      = (high_pass_filter alpha xs).map (fun x => c * x) := by
  cases xs with
  | nil => rfl
  | cons x rest =>
    simp only [List.map_cons, high_pass_filter]
    rw [high_pass_aux_smul]

lemma high_pass_aux_alias (alpha : ℚ) :
    ∀ (l : List ℚ) (y : ℚ), high_pass_aux alpha y y l = l.map (fun x => alpha * x) := by
  intro l
  induction l with
  | nil => intro y; rfl
  | cons x rest ih =>
    intro y
    simp only [high_pass_aux, List.map_cons]
    have h : alpha * (y + x - y) = alpha * x := by ring
    rw [h, ih]

lemma high_pass_filter_alias (alpha x0 : ℚ) (rest : List ℚ) :
    high_pass_filter alpha (x0 :: rest) = x0 :: rest.map (fun x => alpha * x) := by
  simp only [high_pass_filter]
  rw [high_pass_aux_alias]

lemma sumAbs_nonneg (xs : List ℚ) : 0 ≤ sumAbs xs := by
  induction xs with
  | nil => simp [sumAbs]
  | cons x rest ih =>
    simp only [sumAbs, List.map_cons, List.sum_cons] at *
    have := abs_nonneg x
    rw [fabsf_eq_abs]
    linarith

lemma sumAbs_smul {c : ℚ} (hc : 0 ≤ c) (xs : List ℚ) :
    sumAbs (xs.map (fun x => c * x)) = c * sumAbs xs := by
  induction xs with
  | nil => simp [sumAbs]
  | cons x rest ih =>
    simp only [sumAbs, List.map_cons, List.sum_cons] at *
    rw [fabsf_eq_abs, fabsf_eq_abs, abs_mul, abs_of_nonneg hc, ih]
    ring

lemma vad_energy_smul (alpha freq_thold : ℚ) {c : ℚ} (hc : 0 ≤ c) (xs : List ℚ) :
    vad_energy alpha freq_thold (xs.map (fun x => c * x))
      = c * vad_energy alpha freq_thold xs := by
  unfold vad_energy
  by_cases h : 0 < freq_thold
  · simp only [h, if_true, List.length_map]
    rw [high_pass_filter_smul, sumAbs_smul hc, mul_div_assoc]
  · simp only [h, if_false, List.length_map]
    rw [sumAbs_smul hc, mul_div_assoc]

lemma vad_energy_nonneg (alpha freq_thold : ℚ) (xs : List ℚ) :
    0 ≤ vad_energy alpha freq_thold xs := by
  unfold vad_energy
  apply div_nonneg
  · split <;> exact sumAbs_nonneg _
  · exact Nat.cast_nonneg _

/-- C6: voice-activity detection is monotonic in amplitude.  `vad_simple`
classifies speech iff the post-filter mean absolute amplitude is at least
the fixed threshold `VAD_THOLD = 0.0001`; the high-pass filter and the mean
absolute amplitude are homogeneous under scaling by any constant `c ≥ 0`;
consequently scaling every sample by any `c ≥ 1` preserves a speech
classification.  (Stated for every filter coefficient `alpha` and cutoff
gate `freq_thold`, so in particular for the source's
`FREQ_THOLD = 100` configuration.) -/
theorem C6_thm :
    ∀ (alpha freq_thold : ℚ) (xs : List ℚ) (c : ℚ),
      (vad_simple alpha freq_thold VAD_THOLD xs = true ↔
        VAD_THOLD ≤ vad_energy alpha freq_thold xs) ∧
      (high_pass_filter alpha (xs.map (fun x => c * x))
        = (high_pass_filter alpha xs).map (fun x => c * x)) ∧
      (0 ≤ c → vad_energy alpha freq_thold (xs.map (fun x => c * x))
        = c * vad_energy alpha freq_thold xs) ∧
      (1 ≤ c → vad_simple alpha freq_thold VAD_THOLD xs = true →
        vad_simple alpha freq_thold VAD_THOLD (xs.map (fun x => c * x)) = true) := by
  have hiff : ∀ (alpha freq_thold : ℚ) (xs : List ℚ),
      vad_simple alpha freq_thold VAD_THOLD xs = true ↔
        VAD_THOLD ≤ vad_energy alpha freq_thold xs := by
    intro alpha freq_thold xs
    unfold vad_simple
    by_cases h : vad_energy alpha freq_thold xs < VAD_THOLD
    · simp [h, not_le.mpr h]
    · simp [h, not_lt.mp h]
  intro alpha freq_thold xs c
  refine ⟨hiff alpha freq_thold xs, high_pass_filter_smul alpha c xs,
    fun hc => vad_energy_smul alpha freq_thold hc xs, fun hc hs => ?_⟩
  rw [hiff] at hs ⊢
  rw [vad_energy_smul alpha freq_thold (by linarith) xs]
  calc VAD_THOLD ≤ vad_energy alpha freq_thold xs := hs
    _ = 1 * vad_energy alpha freq_thold xs := (one_mul _).symm
    _ ≤ c * vad_energy alpha freq_thold xs :=
        mul_le_mul_of_nonneg_right hc (vad_energy_nonneg _ _ _)

/-- C6 witness: the window `[1]` is speech (energy 1 without filtering) and
remains speech after scaling by 2. -/
theorem C6_witness :
    vad_simple 1 0 VAD_THOLD ([1].map (fun x => (2 : ℚ) * x)) = true :=
  (C6_thm 1 0 [1] 2).2.2.2 (by norm_num)
    (by norm_num [vad_simple, vad_energy, sumAbs, fabsf, VAD_THOLD])

lemma word_boundary_simple_eq (xs : List ℚ) (size sample_rate : ℕ) (thold : ℚ)
    (h1 : sample_rate * 50 / 1000 ≤ size) (h2 : size < U64) :
    word_boundary_simple xs size sample_rate thold =
      if avg_energy_in_window xs 0 (sample_rate * 50 / 1000)
            < max_energy_in_window xs (sample_rate * 50 / 1000)
                (size - sample_rate * 50 / 1000) * thold
          ∧ avg_energy_in_window xs (size - sample_rate * 50 / 1000)
                (sample_rate * 50 / 1000)
            < max_energy_in_window xs (sample_rate * 50 / 1000)
                (size - sample_rate * 50 / 1000) * thold
      then sample_rate * 50 / 1000 else 0 := by
  simp only [word_boundary_simple, usub64_of_le h1 h2]

lemma logLoopIdx_lt (nw size : ℕ) :
    ∀ (fuel i : ℕ), size - nw - i ≤ fuel → ∀ j ∈ logLoopIdx nw size i, j < size := by
  intro fuel
  induction fuel with
  | zero =>
    intro i hle j hj
    rw [logLoopIdx] at hj
    rcases Decidable.em (0 < nw ∧ i < size - nw) with h | h
    · omega
    · rw [dif_neg h] at hj
      cases hj
  | succ n ih =>
    intro i hle j hj
    rw [logLoopIdx] at hj
    rcases Decidable.em (0 < nw ∧ i < size - nw) with h | h
    · rw [dif_pos h] at hj
      rcases List.mem_append.mp hj with hj1 | hj2
      · rcases List.mem_map.mp hj1 with ⟨k, hk, rfl⟩
        have := List.mem_range.mp hk
        omega
      · exact ih (i + nw) (by omega) j hj2
    · rw [dif_neg h] at hj
      cases hj

/-- Concrete window refuting C7's "interior" reading: sample rate 100
(50 ms sub-windows of 5 samples), 15 samples = 3 sub-windows. -/
def c7_ex : List ℚ := [0, 0, 0, 0, 0, 1, 1, 1, 1, 1, 0, 0, 0, 0, 100]

set_option maxRecDepth 10000 in
/-- C7 counterexample: on `c7_ex` (first sub-window all 0, interior
sub-window all 1, last sub-window `[0,0,0,0,100]`), the source's third scan
covers the range from the end of the first sub-window to the END of the
window — including the last sub-window — so its maximum is 100, the
threshold is 25, both edge averages (0 and 20) fall below it, and
`word_boundary_simple` declares a boundary (returns 5).  Under the claim's
condition the interior maximum is 1, so the last edge average 20 is not
strictly below `1 * 0.25` and no boundary should be declared: the claimed
"if and only if" is false on this input. -/
theorem C7_counter :
    word_boundary_simple c7_ex 15 100 (1 / 4) = 5 ∧
    ¬ (avg_energy_in_window c7_ex 0 5
          < max_energy_interior_claim c7_ex 15 5 * (1 / 4) ∧
        avg_energy_in_window c7_ex 10 5
          < max_energy_interior_claim c7_ex 15 5 * (1 / 4)) := by
  have havg0 : avg_energy_in_window c7_ex 0 5 = 0 := by
    rw [avg_energy_in_window,
      show (List.range 5).map (fun j => fabsf (c7_ex.getD (0 + j) 0)) = [0, 0, 0, 0, 0]
        from by decide]
    norm_num
  have havg10 : avg_energy_in_window c7_ex 10 5 = 20 := by
    rw [avg_energy_in_window,
      show (List.range 5).map (fun j => fabsf (c7_ex.getD (10 + j) 0)) = [0, 0, 0, 0, 100]
        from by decide]
    norm_num
  have hmaxcode : max_energy_in_window c7_ex 5 10 = 100 := by decide
  have hmaxint : max_energy_interior_claim c7_ex 15 5 = 1 := by decide
  constructor
  · rw [word_boundary_simple_eq c7_ex 15 100 (1 / 4) (by norm_num) (by norm_num [U64])]
    norm_num
    rw [havg0, havg10, hmaxcode]
    norm_num
  · rw [havg10, hmaxint]
    intro h
    have := h.2
    norm_num at this

/-- C7 amended: under the explicit minimum-length precondition (a 50 ms
sub-window is nonempty and the window holds at least two of them), every
array access of the word-boundary check — first and last sub-window
averages, the scan from the first sub-window's end, and the diagnostic
logging loop — stays strictly below the window size, and the check returns
the first sub-window offset iff both edge averages fall strictly below
0.25 (`thold`) times the maximum energy over the range from the first
sub-window's end to the window's END (which includes the last sub-window,
not only the interior ones), returning 0 otherwise. -/
theorem C7_amended_thm :
    ∀ (xs : List ℚ) (size sample_rate : ℕ) (thold : ℚ),
      1 ≤ sample_rate * 50 / 1000 →
      2 * (sample_rate * 50 / 1000) ≤ size →
      size < U64 →
      (∀ i ∈ wb_accessed size (sample_rate * 50 / 1000), i < size) ∧
      (word_boundary_simple xs size sample_rate thold = sample_rate * 50 / 1000 ↔
        (avg_energy_in_window xs 0 (sample_rate * 50 / 1000)
            < max_energy_in_window xs (sample_rate * 50 / 1000)
                (size - sample_rate * 50 / 1000) * thold ∧
          avg_energy_in_window xs (size - sample_rate * 50 / 1000)
              (sample_rate * 50 / 1000)
            < max_energy_in_window xs (sample_rate * 50 / 1000)
                (size - sample_rate * 50 / 1000) * thold)) ∧
      (word_boundary_simple xs size sample_rate thold = sample_rate * 50 / 1000 ∨
        word_boundary_simple xs size sample_rate thold = 0) := by
  intro xs size sample_rate thold h1 h2 hU
  refine ⟨?_, ?_⟩
  · intro i hi
    simp only [wb_accessed, List.mem_append, List.mem_map, List.mem_range] at hi
    rcases hi with ((hi | hi) | hi) | hi
    · omega
    · rcases hi with ⟨k, hk, rfl⟩
      omega
    · rcases hi with ⟨k, hk, rfl⟩
      omega
    · exact logLoopIdx_lt _ size size 0 (by omega) i hi
  · rw [word_boundary_simple_eq xs size sample_rate thold (by omega) hU]
    by_cases hc : avg_energy_in_window xs 0 (sample_rate * 50 / 1000)
          < max_energy_in_window xs (sample_rate * 50 / 1000)
              (size - sample_rate * 50 / 1000) * thold
        ∧ avg_energy_in_window xs (size - sample_rate * 50 / 1000)
              (sample_rate * 50 / 1000)
          < max_energy_in_window xs (sample_rate * 50 / 1000)
              (size - sample_rate * 50 / 1000) * thold
    · rw [if_pos hc]
      exact ⟨⟨fun _ => hc, fun _ => rfl⟩, Or.inl rfl⟩
    · rw [if_neg hc]
      exact ⟨iff_of_false (by omega) hc, Or.inr rfl⟩

/-- C7 witness: the two-sub-window window `[0, 0]` at sample rate 20
(sub-window length 1) satisfies the precondition, and the check returns
either the sub-window offset or 0 there. -/
theorem C7_witness :
    word_boundary_simple [0, 0] 2 20 (1 / 4) = 20 * 50 / 1000 ∨
      word_boundary_simple [0, 0] 2 20 (1 / 4) = 0 :=
  (C7_amended_thm [0, 0] 2 20 (1 / 4) (by decide) (by decide) (by decide)).2.2
